import Mathlib

/-!
# Payload marshaling of the qdrant client (client.go)

A shallow embedding of `mapPayload`, `getPayload`, `getPayloadMap` and of the
request-building parts of `NewCollection`, `Upsert` and `Search`.

Conventions of the embedding

* An `interface{}` value is a `HostValue`: one constructor per case of the type
  switch of `mapPayload`, plus `nil` (the nil interface) and `other` (a value of
  any dynamic type the switch does not list).  A `HostValue` is a finite tree;
  a slice or map stored inside itself is expressed with references into a store
  (`RefValue`, `Store`), on which `mapPayloadRef` is `mapPayload` with a bound on
  the depth of nested calls.
* A Go slice is `Option (List α)` and a Go map with string keys is
  `Option (List (String × α))`; `none` is the nil slice or nil map.  The entries
  of a map are listed in some order and their keys are pairwise distinct
  (`keysDistinct`); `range` visits them in the listed order; every loop of
  client.go that ranges over a map writes each key once into a fresh map, so the
  resulting map does not depend on the visiting order.
* Integers are mathematical integers; a conversion `int64(x)` is `toInt64`,
  reduction modulo 2^64 into the signed range.
* A float is kept as its bit pattern and never inspected; the widening
  conversion `float64(x)` of a float32 is a parameter `widen`.
* A run-time panic is an `Except.error`; the gRPC stubs of package `pb` are
  parameters (`create`, `send`, `search`).
-/

namespace Qdrant

/-! ## Go data -/

/-- A float32 value, identified by its IEEE-754 binary32 bit pattern. -/
structure GoFloat32 where
  bits : Nat
deriving DecidableEq, Repr

/-- A float64 value, identified by its IEEE-754 binary64 bit pattern. -/
structure GoFloat64 where
  bits : Nat
deriving DecidableEq, Repr

/-- A Go slice: `none` is the nil slice, `some xs` a non-nil slice with elements `xs`. -/
abbrev GoSlice (α : Type) := Option (List α)

/-- A Go `map[string]α`: `none` is the nil map, `some es` a non-nil map with entries `es`. -/
abbrev GoMap (α : Type) := Option (List (String × α))

/-- The elements of a slice; a nil slice has none. -/
def GoSlice.elems {α : Type} : GoSlice α → List α
  | none => []
  | some xs => xs

/-- The Go builtin `len` on a slice. -/
def GoSlice.len {α : Type} (s : GoSlice α) : Nat := s.elems.length

/-- The entries a `range` loop visits; a nil map has none. -/
def GoMap.entries {α : Type} : GoMap α → List (String × α)
  | none => []
  | some es => es

/-- The keys of a list of map entries, in the listed order. -/
def keys {α : Type} (es : List (String × α)) : List String := es.map Prod.fst

/-- The Go map invariant on a list of entries: no key occurs twice. -/
def keysDistinct {α : Type} (es : List (String × α)) : Bool := decide (keys es).Nodup

/-- The map read `m[k]` with the comma-ok result: the value stored under `k`, if any. -/
def mapaccess {α : Type} : List (String × α) → String → Option α
  | [], _ => none
  | (k1, v1) :: rest, k => if k1 = k then some v1 else mapaccess rest k

/-- The map write `m[k] = v` on the entries of a non-nil map: an existing entry
for `k` is overwritten, otherwise a new entry is added. -/
def mapassign {α : Type} : List (String × α) → String → α → List (String × α)
  | [], k, v => [(k, v)]
  | (k1, v1) :: rest, k, v =>
    if k1 = k then (k, v) :: rest else (k1, v1) :: mapassign rest k v

/-- The Go conversion `int64(x)` of an integer value `x` of any integer type:
the value in the range of int64 that is congruent to `x` modulo 2^64. -/
def toInt64 (x : Int) : Int := (x + 2 ^ 63) % 2 ^ 64 - 2 ^ 63

/-- An `interface{}` value, by dynamic type.  The integer constructors carry the
numeric value; `slice` is `[]interface{}`, `map` is `map[string]interface{}`,
`emptyStruct` is the one value of type `struct{}`, `nil` is the nil interface and
`other` stands for a value of any other dynamic type (named by `typeName`). -/
inductive HostValue where
  | nil
  | str (s : String)
  | uint (n : Nat)
  | uint8 (n : Nat)
  | uint16 (n : Nat)
  | uint32 (n : Nat)
  | uint64 (n : Nat)
  | int (n : Int)
  | int8 (n : Int)
  | int16 (n : Int)
  | int32 (n : Int)
  | int64 (n : Int)
  | float32 (x : GoFloat32)
  | float64 (x : GoFloat64)
  | bool (b : Bool)
  | slice (xs : Option (List HostValue))
  | emptyStruct
  | map (m : Option (List (String × HostValue)))
  | other (typeName : String)

/-- Modelled from the spec: the Tagged Value of section 3 (`pb.Value` with its
`Kind` oneof is declared in the imported package `pb`, not in client.go): a closed
sum of Null, Boolean, Integer, Double, String, List and Struct. -/
inductive Value where
  | null
  | bool (b : Bool)
  | integer (i : Int)
  | double (d : GoFloat64)
  | string (s : String)
  | list (values : List Value)
  | struct (fields : List (String × Value))

/-! ## Well-formedness of the data (Go type invariants) -/

mutual
/-- Go type invariants of a host value: every integer lies in the range of its
type (`uint` and `int` are at most 64 bits wide) and no map has a repeated key. -/
def HostValue.wellFormed : HostValue → Bool
  | .uint n => decide (n < 2 ^ 64)
  | .uint8 n => decide (n < 2 ^ 8)
  | .uint16 n => decide (n < 2 ^ 16)
  | .uint32 n => decide (n < 2 ^ 32)
  | .uint64 n => decide (n < 2 ^ 64)
  | .int n => decide (-(2 ^ 63) ≤ n ∧ n < 2 ^ 63)
  | .int8 n => decide (-(2 ^ 7) ≤ n ∧ n < 2 ^ 7)
  | .int16 n => decide (-(2 ^ 15) ≤ n ∧ n < 2 ^ 15)
  | .int32 n => decide (-(2 ^ 31) ≤ n ∧ n < 2 ^ 31)
  | .int64 n => decide (-(2 ^ 63) ≤ n ∧ n < 2 ^ 63)
  | .slice (some xs) => wellFormedList xs
  | .map (some fs) => keysDistinct fs && wellFormedFields fs
  | _ => true
/-- Every element of a slice is well formed. -/
def wellFormedList : List HostValue → Bool
  | [] => true
  | x :: rest => x.wellFormed && wellFormedList rest
/-- Every value of a map is well formed. -/
def wellFormedFields : List (String × HostValue) → Bool
  | [] => true
  | (_, x) :: rest => x.wellFormed && wellFormedFields rest
end

mutual
/-- The values the round-trip law speaks about: built from strings, booleans,
the ten fixed-width integer types, the two float types, `[]interface{}` and
`map[string]interface{}` only. -/
def HostValue.supported : HostValue → Bool
  | .nil => false
  | .emptyStruct => false
  | .other _ => false
  | .slice (some xs) => supportedList xs
  | .map (some fs) => supportedFields fs
  | _ => true
/-- Every element of a slice is supported. -/
def supportedList : List HostValue → Bool
  | [] => true
  | x :: rest => x.supported && supportedList rest
/-- Every value of a map is supported. -/
def supportedFields : List (String × HostValue) → Bool
  | [] => true
  | (_, x) :: rest => x.supported && supportedFields rest
end

/-- The dynamic types the type switch of `mapPayload` lists: string, the integer
and float families, bool, `[]interface{}`, `struct{}` and `map[string]interface{}`. -/
def HostValue.recognised : HostValue → Bool
  | .nil => false
  | .other _ => false
  | _ => true

mutual
/-- The invariant of a Tagged Value: no Struct has a repeated key. -/
def Value.wellFormed : Value → Bool
  | .list vs => valueWellFormedList vs
  | .struct fs => keysDistinct fs && valueWellFormedFields fs
  | _ => true
/-- Every element of a List is well formed. -/
def valueWellFormedList : List Value → Bool
  | [] => true
  | v :: rest => v.wellFormed && valueWellFormedList rest
/-- Every field value of a Struct is well formed. -/
def valueWellFormedFields : List (String × Value) → Bool
  | [] => true
  | (_, v) :: rest => v.wellFormed && valueWellFormedFields rest
end

/-! ## client.go: mapPayload, getPayload, getPayloadMap -/

mutual
/-- The function `mapPayload` of client.go (lines 56-108): the type switch, case by case.
A nil slice or nil map takes the same case as a non-nil one, with no iteration. -/
def mapPayload (widen : GoFloat32 → GoFloat64) : HostValue → Value
  | .str pl => .string pl
  | .uint pl => .integer (toInt64 pl)
  | .uint8 pl => .integer (toInt64 pl)
  | .uint16 pl => .integer (toInt64 pl)
  | .uint32 pl => .integer (toInt64 pl)
  | .uint64 pl => .integer (toInt64 pl)
  | .int pl => .integer (toInt64 pl)
  | .int8 pl => .integer (toInt64 pl)
  | .int16 pl => .integer (toInt64 pl)
  | .int32 pl => .integer (toInt64 pl)
  | .int64 pl => .integer pl
  | .float32 pl => .double (widen pl)
  | .float64 pl => .double pl
  | .bool pl => .bool pl
  | .slice none => .list []
  | .slice (some pl) => .list (mapPayloadList widen pl)
  | .emptyStruct => .struct []
  | .map none => .struct []
  | .map (some pl) => .struct (mapPayloadFields widen pl [])
  | .nil => .null
  | .other _ => .null
/-- The loop of lines 87-90: `listPayloads[i] = mapPayload(pl[i])` for every index `i`. -/
def mapPayloadList (widen : GoFloat32 → GoFloat64) : List HostValue → List Value
  | [] => []
  | x :: rest => mapPayload widen x :: mapPayloadList widen rest
/-- The loop of lines 100-103: `payload[j] = mapPayload(pl[j])` for every key `j`
(`pl[j]` is the value of the entry with key `j`), run on the entries still to
visit and the map `payload` built so far. -/
def mapPayloadFields (widen : GoFloat32 → GoFloat64) :
    List (String × HostValue) → List (String × Value) → List (String × Value)
  | [], payload => payload
  | (j, plj) :: rest, payload =>
    mapPayloadFields widen rest (mapassign payload j (mapPayload widen plj))
end

mutual
/-- The function `getPayload` of client.go (lines 154-179): the switch on the kind. -/
def getPayload : Value → HostValue
  | .double k => .float64 k
  | .integer k => .int64 k
  | .bool k => .bool k
  | .string k => .str k
  | .list k => .slice (some (getPayloadList k))
  | .struct k => .map (some (getPayloadFields k []))
  | .null => .nil
/-- The loop of lines 165-168: `values[i] = getPayload(v)` for every index `i`. -/
def getPayloadList : List Value → List HostValue
  | [] => []
  | v :: rest => getPayload v :: getPayloadList rest
/-- The loop of lines 171-174: `values[i] = getPayload(v)` for every entry `(i, v)`,
run on the entries still to visit and the map `values` built so far. -/
def getPayloadFields :
    List (String × Value) → List (String × HostValue) → List (String × HostValue)
  | [], values => values
  | (i, v) :: rest, values => getPayloadFields rest (mapassign values i (getPayload v))
end

/-- The function `getPayloadMap` of client.go (lines 181-187): `res` is made non-nil
and filled by ranging over `plds`. -/
def getPayloadMap (plds : GoMap Value) : GoMap HostValue :=
  some (plds.entries.foldl (fun res e => mapassign res e.1 (getPayload e.2)) [])

/-! ## client.go: NewCollection -/

/-- A Go `error` value, by its message. -/
structure GoError where
  message : String
deriving DecidableEq, Repr

/-- Modelled from the spec: the distance metric enumeration of section 3
(`pb.Distance` is declared in the imported package `pb`). -/
inductive Distance where
  | UnknownDistance
  | Cosine
  | Euclid
  | Dot
deriving DecidableEq, Repr

/-- Modelled from the spec: the vector parameters of a collection descriptor
(`pb.VectorParams`): dimensionality and distance metric. -/
structure VectorParams where
  size : Nat
  distance : Distance
deriving DecidableEq, Repr

/-- Modelled from the spec: the creation request of section 6 (`pb.CreateCollection`
with its `VectorsConfig_Params` option): name, vector size, distance metric. -/
structure CreateCollection where
  collectionName : String
  vectorsConfigParams : VectorParams
deriving DecidableEq, Repr

/-- The request `NewCollection` passes to the collections stub (lines 38-52). -/
def createCollectionRequest (name : String) (vec_size : Nat) (vec_dist : String) :
    CreateCollection :=
  let vd :=
    if vec_dist = "DOT" then Distance.Dot
    else if vec_dist = "COSINE" then Distance.Cosine
    else Distance.Euclid
  { collectionName := name, vectorsConfigParams := { size := vec_size, distance := vd } }

/-- The method `NewCollection` of client.go (lines 37-54); `create` is the stub
`c.collection.Create`, giving the error it returns (`none` for a nil error). -/
def NewCollection (create : CreateCollection → Option GoError)
    (name : String) (vec_size : Nat) (vec_dist : String) : Option GoError :=
  create (createCollectionRequest name vec_size vec_dist)

/-- Equality of two strings ignoring the case of the letters a-z. -/
def equalIgnoringCase (s t : String) : Bool :=
  s.data.map Char.toUpper == t.data.map Char.toUpper

/-! ## client.go: Upsert and Search -/

/-- Modelled from the spec: the identifier options of a point (`pb.PointId`): a
number or a UUID string. -/
inductive PointIdOptions where
  | num (n : Nat)
  | uuid (s : String)
deriving DecidableEq, Repr

/-- Modelled from the spec: the identifier of a point (`pb.PointId`). -/
structure PointId where
  pointIdOptions : Option PointIdOptions
deriving DecidableEq, Repr

/-- Modelled from the spec: one dense vector of 32-bit floats (`pb.Vector`). -/
structure Vector where
  data : List GoFloat32
deriving DecidableEq, Repr

/-- Modelled from the spec: the vector options of a point (`pb.Vectors`): a single
dense vector, or named vectors. -/
inductive VectorsOptions where
  | vector (v : Vector)
  | vectors (named : List (String × Vector))
deriving DecidableEq, Repr

/-- Modelled from the spec: the vectors of a point (`pb.Vectors`). -/
structure Vectors where
  vectorsOptions : Option VectorsOptions
deriving DecidableEq, Repr

/-- Modelled from the spec: the wire point of an upsert (`pb.PointStruct`);
pointer fields are `none` when nil. -/
structure PointStruct where
  id : Option PointId
  payload : GoMap Value
  vectors : Option Vectors

/-- Modelled from the spec: a result point of a search (`pb.ScoredPoint`). -/
structure ScoredPoint where
  id : Option PointId
  payload : GoMap Value
  score : GoFloat32
  vectors : Option Vectors

/-- Modelled from the spec: the batched upsert request (`pb.UpsertPoints`). -/
structure UpsertPoints where
  collectionName : String
  wait : Option Bool
  points : List PointStruct

/-- Modelled from the spec: the search request (`pb.SearchPoints`), with the
payload-inclusion flag. -/
structure SearchPoints where
  collectionName : String
  vector : List GoFloat32
  limit : Nat
  withPayloadEnable : Bool

/-- Modelled from the spec: reading the identifier of a point, the generated getter
`GetUuid` of `pb.PointId` (package `pb` is imported, not part of client.go): the
UUID when the identifier is one, the empty string otherwise (also on a nil receiver). -/
def PointId.GetUuid : Option PointId → String
  | some { pointIdOptions := some (.uuid s) } => s
  | _ => ""

/-- Modelled from the spec: reading the vector of a point, the generated getter
`GetVector` of `pb.Vectors`: the single dense vector when that option is set, nil
otherwise (also on a nil receiver). -/
def Vectors.GetVector : Option Vectors → Option Vector
  | some { vectorsOptions := some (.vector v) } => some v
  | _ => none

/-- Modelled from the spec: the generated getter `GetData` of `pb.Vector`: the
data, or no data on a nil receiver. -/
def Vector.GetData : Option Vector → List GoFloat32
  | some v => v.data
  | none => []

/-- A Go run-time panic. -/
inductive RuntimePanic where
  | indexOutOfRange (index : Nat) (length : Nat)
deriving DecidableEq, Repr

/-- Lines 113-119 of `Upsert` at index `i`: `plds` stays nil when `payloads` is nil;
otherwise it is made non-nil and filled by ranging over `payloads[i]`, and the
index expression panics when `i` is not below `len(payloads)`. -/
def upsertPayload (widen : GoFloat32 → GoFloat64) (payloads : GoSlice (GoMap HostValue))
    (i : Nat) : Except RuntimePanic (GoMap Value) :=
  match payloads with
  | none => .ok none
  | some pls =>
    match pls[i]? with
    | none => .error (.indexOutOfRange i pls.length)
    | some m =>
      .ok (some (m.entries.foldl (fun plds e => mapassign plds e.1 (mapPayload widen e.2)) []))

/-- The wire point of lines 120-124 of `Upsert`: the identifier as a UUID, the
encoded payload, and the vector as a single dense vector. -/
def pointOf (id : String) (plds : GoMap Value) (p : List GoFloat32) : PointStruct :=
  { id := some { pointIdOptions := some (.uuid id) },
    payload := plds,
    vectors := some { vectorsOptions := some (.vector { data := p }) } }

/-- The loop of lines 112-125 of `Upsert`, from index `i` on: one wire point per
element of `points`, reading `payloads[i]` and then `ids[i]`. -/
def upsertPoints (widen : GoFloat32 → GoFloat64) (payloads : GoSlice (GoMap HostValue))
    (ids : List String) : Nat → List (List GoFloat32) → Except RuntimePanic (List PointStruct)
  | _, [] => .ok []
  | i, p :: rest =>
    match upsertPayload widen payloads i with
    | .error e => .error e
    | .ok plds =>
      match ids[i]? with
      | none => .error (.indexOutOfRange i ids.length)
      | some id =>
        match upsertPoints widen payloads ids (i + 1) rest with
        | .error e => .error e
        | .ok pts => .ok (pointOf id plds p :: pts)

/-- The request `Upsert` passes to the points stub (lines 111-130), or the panic
that ends the call before any request is made. -/
def upsertRequest (widen : GoFloat32 → GoFloat64) (name : String)
    (points : List (List GoFloat32)) (payloads : GoSlice (GoMap HostValue))
    (ids : List String) (wait : Bool) : Except RuntimePanic UpsertPoints :=
  match upsertPoints widen payloads ids 0 points with
  | .error e => .error e
  | .ok pts => .ok { collectionName := name, wait := some wait, points := pts }

/-- The body of the loop of `Search` (lines 204-207) on one result point: identifier,
vector, payload and score. -/
def readPoint (r : ScoredPoint) : String × List GoFloat32 × GoMap HostValue × GoFloat32 :=
  (PointId.GetUuid r.id, Vector.GetData (Vectors.GetVector r.vectors),
    getPayloadMap r.payload, r.score)

/-- The method `Search` of client.go (lines 189-210); `search` is the stub
`c.points.Search`, giving the result points or the error. -/
def Search (search : SearchPoints → Except GoError (List ScoredPoint))
    (name : String) (vec : List GoFloat32) (limit : Nat) :
    Except GoError
      (List String × List (List GoFloat32) × List (GoMap HostValue) × List GoFloat32) :=
  match search { collectionName := name, vector := vec, limit := limit,
                 withPayloadEnable := true } with
  | .error err => .error err
  | .ok result =>
    .ok (result.map (fun r => (readPoint r).1), result.map (fun r => (readPoint r).2.1),
         result.map (fun r => (readPoint r).2.2.1), result.map (fun r => (readPoint r).2.2.2))

/-! ## Normal forms used by the round-trip law -/

mutual
/-- The normalisation of the round-trip law: every integer is converted to int64
and every float32 to float64, at any depth; nothing else changes. -/
def normalize (widen : GoFloat32 → GoFloat64) : HostValue → HostValue
  | .uint n => .int64 (toInt64 n)
  | .uint8 n => .int64 (toInt64 n)
  | .uint16 n => .int64 (toInt64 n)
  | .uint32 n => .int64 (toInt64 n)
  | .uint64 n => .int64 (toInt64 n)
  | .int n => .int64 (toInt64 n)
  | .int8 n => .int64 (toInt64 n)
  | .int16 n => .int64 (toInt64 n)
  | .int32 n => .int64 (toInt64 n)
  | .float32 x => .float64 (widen x)
  | .slice (some xs) => .slice (some (normalizeList widen xs))
  | .map (some fs) => .map (some (normalizeFields widen fs))
  | v => v
/-- Normalisation of the elements of a slice, in order. -/
def normalizeList (widen : GoFloat32 → GoFloat64) : List HostValue → List HostValue
  | [] => []
  | x :: rest => normalize widen x :: normalizeList widen rest
/-- Normalisation of the values of a map, key by key. -/
def normalizeFields (widen : GoFloat32 → GoFloat64) :
    List (String × HostValue) → List (String × HostValue)
  | [] => []
  | (k, x) :: rest => (k, normalize widen x) :: normalizeFields widen rest
end

mutual
/-- The shape of a host value: the value with every nil slice read as the empty
slice and every nil map as the empty map, at any depth. -/
def HostValue.shape : HostValue → HostValue
  | .slice none => .slice (some [])
  | .slice (some xs) => .slice (some (shapeList xs))
  | .map none => .map (some [])
  | .map (some fs) => .map (some (shapeFields fs))
  | v => v
/-- Shape of the elements of a slice, in order. -/
def shapeList : List HostValue → List HostValue
  | [] => []
  | x :: rest => x.shape :: shapeList rest
/-- Shape of the values of a map, key by key. -/
def shapeFields : List (String × HostValue) → List (String × HostValue)
  | [] => []
  | (k, x) :: rest => (k, x.shape) :: shapeFields rest
end

/-- Structural equality of host values: the same leaves, the same elements in the
same order, the same keys with structurally equal values; a nil and an empty
slice (or map) are structurally equal. -/
def StructEq (a b : HostValue) : Prop := a.shape = b.shape

mutual
/-- No nil slice and no nil map occurs in the value, at any depth. -/
def HostValue.nilFree : HostValue → Bool
  | .slice none => false
  | .map none => false
  | .slice (some xs) => nilFreeList xs
  | .map (some fs) => nilFreeFields fs
  | _ => true
/-- No element of a slice holds a nil slice or nil map. -/
def nilFreeList : List HostValue → Bool
  | [] => true
  | x :: rest => x.nilFree && nilFreeList rest
/-- No value of a map holds a nil slice or nil map. -/
def nilFreeFields : List (String × HostValue) → Bool
  | [] => true
  | (_, x) :: rest => x.nilFree && nilFreeFields rest
end

/-! ## Host values with shared and self-referring slices and maps

Go slices and maps are references: a slice or map can be stored inside itself.
Such a value is no finite tree; it is expressed here as a reference into a store. -/

/-- An `interface{}` value whose slices and maps are references into a store:
`slice (some a)` is the slice whose elements the store keeps at address `a`,
`slice none` the nil slice, and likewise for maps. -/
inductive RefValue where
  | nil
  | str (s : String)
  | uint (n : Nat)
  | uint8 (n : Nat)
  | uint16 (n : Nat)
  | uint32 (n : Nat)
  | uint64 (n : Nat)
  | int (n : Int)
  | int8 (n : Int)
  | int16 (n : Int)
  | int32 (n : Int)
  | int64 (n : Int)
  | float32 (x : GoFloat32)
  | float64 (x : GoFloat64)
  | bool (b : Bool)
  | slice (ref : Option Nat)
  | emptyStruct
  | map (ref : Option Nat)
  | other (typeName : String)
deriving DecidableEq, Repr

/-- The memory the references point into: the elements of every slice and the
entries of every map, by address. -/
structure Store where
  slices : Nat → List RefValue
  maps : Nat → List (String × RefValue)

/-- The dynamic types the type switch of `mapPayload` lists, on reference values. -/
def RefValue.recognised : RefValue → Bool
  | .nil => false
  | .other _ => false
  | _ => true

/-- A loop that converts every element of a slice in order; it gives no result
when the conversion of an element gives none. -/
def traverseList {α β : Type} (f : α → Option β) : List α → Option (List β)
  | [] => some []
  | x :: rest =>
    match f x with
    | none => none
    | some y =>
      match traverseList f rest with
      | none => none
      | some ys => some (y :: ys)

/-- A loop that converts every value of a map and writes it under its key into the
map built so far; it gives no result when the conversion of a value gives none. -/
def traverseEntries {α β : Type} (f : α → Option β) :
    List (String × α) → List (String × β) → Option (List (String × β))
  | [], payload => some payload
  | (j, x) :: rest, payload =>
    match f x with
    | none => none
    | some y => traverseEntries f rest (mapassign payload j y)

/-- A loop that converts every value of a map, keeping the keys. -/
def traverseValues {α β : Type} (f : α → Option β) :
    List (String × α) → Option (List (String × β))
  | [] => some []
  | (k, x) :: rest =>
    match f x with
    | none => none
    | some y =>
      match traverseValues f rest with
      | none => none
      | some ys => some ((k, y) :: ys)

/-- The function `mapPayload` of client.go (lines 56-108) on reference values, run
with a bound `depth` on the number of nested calls: `none` when a call would nest
deeper than the bound (the call has not returned within it), otherwise the result. -/
def mapPayloadRef (widen : GoFloat32 → GoFloat64) (st : Store) : Nat → RefValue → Option Value
  | 0, _ => none
  | _ + 1, .str pl => some (.string pl)
  | _ + 1, .uint pl => some (.integer (toInt64 pl))
  | _ + 1, .uint8 pl => some (.integer (toInt64 pl))
  | _ + 1, .uint16 pl => some (.integer (toInt64 pl))
  | _ + 1, .uint32 pl => some (.integer (toInt64 pl))
  | _ + 1, .uint64 pl => some (.integer (toInt64 pl))
  | _ + 1, .int pl => some (.integer (toInt64 pl))
  | _ + 1, .int8 pl => some (.integer (toInt64 pl))
  | _ + 1, .int16 pl => some (.integer (toInt64 pl))
  | _ + 1, .int32 pl => some (.integer (toInt64 pl))
  | _ + 1, .int64 pl => some (.integer pl)
  | _ + 1, .float32 pl => some (.double (widen pl))
  | _ + 1, .float64 pl => some (.double pl)
  | _ + 1, .bool pl => some (.bool pl)
  | _ + 1, .slice none => some (.list [])
  | depth + 1, .slice (some a) =>
    match traverseList (mapPayloadRef widen st depth) (st.slices a) with
    | none => none
    | some listPayloads => some (.list listPayloads)
  | _ + 1, .emptyStruct => some (.struct [])
  | _ + 1, .map none => some (.struct [])
  | depth + 1, .map (some a) =>
    match traverseEntries (mapPayloadRef widen st depth) (st.maps a) [] with
    | none => none
    | some payload => some (.struct payload)
  | _ + 1, .nil => some .null
  | _ + 1, .other _ => some .null

/-- The finite tree a reference value denotes, read from the store down to the
given nesting depth: `none` when the value nests deeper than the bound. -/
def readBack (st : Store) : Nat → RefValue → Option HostValue
  | 0, _ => none
  | _ + 1, .nil => some .nil
  | _ + 1, .str s => some (.str s)
  | _ + 1, .uint n => some (.uint n)
  | _ + 1, .uint8 n => some (.uint8 n)
  | _ + 1, .uint16 n => some (.uint16 n)
  | _ + 1, .uint32 n => some (.uint32 n)
  | _ + 1, .uint64 n => some (.uint64 n)
  | _ + 1, .int n => some (.int n)
  | _ + 1, .int8 n => some (.int8 n)
  | _ + 1, .int16 n => some (.int16 n)
  | _ + 1, .int32 n => some (.int32 n)
  | _ + 1, .int64 n => some (.int64 n)
  | _ + 1, .float32 x => some (.float32 x)
  | _ + 1, .float64 x => some (.float64 x)
  | _ + 1, .bool b => some (.bool b)
  | _ + 1, .slice none => some (.slice none)
  | depth + 1, .slice (some a) =>
    match traverseList (readBack st depth) (st.slices a) with
    | none => none
    | some xs => some (.slice (some xs))
  | _ + 1, .emptyStruct => some .emptyStruct
  | _ + 1, .map none => some (.map none)
  | depth + 1, .map (some a) =>
    match traverseValues (readBack st depth) (st.maps a) with
    | none => none
    | some fs => some (.map (some fs))
  | _ + 1, .other typeName => some (.other typeName)

/-! ## Concrete data for the examples -/

/-- The IEEE-754 widening of a binary32 bit pattern to binary64 (sign, exponent
rebias, fraction shift; a subnormal is renormalised, a NaN stays a NaN): one
instance of the parameter `widen`, used in the examples. -/
def widenIEEE (x : GoFloat32) : GoFloat64 :=
  let b := x.bits % 2 ^ 32
  let sign := b / 2 ^ 31
  let e := b / 2 ^ 23 % 2 ^ 8
  let m := b % 2 ^ 23
  if e = 255 then
    { bits := sign * 2 ^ 63 + 2047 * 2 ^ 52 + (if m = 0 then 0 else m * 2 ^ 29 ||| 2 ^ 51) }
  else if e = 0 then
    if m = 0 then { bits := sign * 2 ^ 63 }
    else { bits := sign * 2 ^ 63 + (Nat.log2 m + 874) * 2 ^ 52
                     + (m - 2 ^ Nat.log2 m) * 2 ^ (52 - Nat.log2 m) }
  else { bits := sign * 2 ^ 63 + (e + 896) * 2 ^ 52 + m * 2 ^ 29 }

/-- A nested host value: a map holding a string, the largest uint64, and a slice
with a negative int8, the float32 1.0, a boolean, a nil slice and a nil map. -/
def exampleHostValue : HostValue :=
  .map (some [("tag", .str "a"), ("n", .uint64 (2 ^ 64 - 1)),
    ("xs", .slice (some [.int8 (-3), .float32 { bits := 0x3F800000 }, .bool true,
      .slice none, .map none]))])

/-- A nested host value without nil slices and nil maps. -/
def exampleNilFreeValue : HostValue :=
  .slice (some [.uint16 9, .str "x", .map (some [("k", .float32 { bits := 0 }),
    ("e", .slice (some []))])])

/-- A nested Tagged Value: a Struct holding a Null, an Integer and a List. -/
def exampleValue : Value :=
  .struct [("a", .null), ("b", .integer (-7)),
    ("c", .list [.string "x", .bool false, .double { bits := 0 }, .struct []])]

/-- The fields of a Struct with two keys. -/
def exampleFields : List (String × Value) :=
  [("a", .null), ("b", .integer 1)]

/-- A vector of dimension one. -/
def exampleVector : List GoFloat32 := [{ bits := 0x3F800000 }]

/-- A second payload mapping, with one key and a nested value. -/
def exampleSecondPayload : GoMap HostValue :=
  some [("tag", .slice (some [.str "b", .int (-1)]))]

/-- A second vector of dimension one. -/
def exampleSecondVector : List GoFloat32 := [{ bits := 0x40000000 }]

/-- A payload mapping with two keys. -/
def examplePayload : GoMap HostValue :=
  some [("tag", .str "a"), ("rank", .uint8 7)]

/-- A store with a slice that is its own first element (`s[0] = s`). -/
def cyclicStore : Store :=
  { slices := fun _ => [.slice (some 0)], maps := fun _ => [] }

/-- A store with nested and shared slices and maps, none containing itself. -/
def exampleStore : Store :=
  { slices := fun a =>
      match a with
      | 0 => [.bool true, .other "chan int"]
      | 1 => [.str "a", .slice (some 0), .map (some 0), .slice none]
      | _ => [],
    maps := fun a =>
      match a with
      | 0 => [("k", .slice (some 0)), ("n", .uint8 3)]
      | _ => [] }

/-- A nesting rank for `exampleStore`: every slice and map ranks above its contents. -/
def exampleRank : RefValue → Nat
  | .slice (some 0) => 1
  | .map (some 0) => 2
  | .slice (some 1) => 3
  | .slice (some _) => 1
  | .map (some _) => 1
  | _ => 0

/-! ## Map writes and range loops -/

theorem keys_append {α : Type} (a b : List (String × α)) :
    keys (a ++ b) = keys a ++ keys b := by
  simp [keys]

theorem mapassign_fresh {α : Type} (acc : List (String × α)) (k : String) (v : α)
    (h : k ∉ keys acc) : mapassign acc k v = acc ++ [(k, v)] := by
  induction acc with
  | nil => rfl
  | cons e rest ih =>
    obtain ⟨k1, v1⟩ := e
    have hk : ¬ k1 = k := by
      intro hEq
      exact h (by simp [keys, hEq])
    have hrest : k ∉ keys rest := by
      intro hmem
      exact h (by simp [keys] at hmem ⊢; exact Or.inr hmem)
    simp [mapassign, hk, ih hrest]

/-- A range loop that writes `f v` under each key of distinct entries, into a map
that has none of these keys, appends the converted entries in the visiting order. -/
theorem foldl_mapassign {α β : Type} (f : α → β) (es : List (String × α)) :
    ∀ acc : List (String × β), (keys acc ++ keys es).Nodup →
      es.foldl (fun res e => mapassign res e.1 (f e.2)) acc
        = acc ++ es.map (fun e => (e.1, f e.2)) := by
  induction es with
  | nil => intro acc _; simp
  | cons e rest ih =>
    intro acc h
    have hfresh : e.1 ∉ keys acc := by
      intro hmem
      have hd := (List.nodup_append.mp h).2.2
      exact hd hmem (by simp [keys])
    have hnext : (keys (acc ++ [(e.1, f e.2)]) ++ keys rest).Nodup := by
      have : keys (acc ++ [(e.1, f e.2)]) ++ keys rest = keys acc ++ keys (e :: rest) := by
        simp [keys]
      rw [this]; exact h
    simp only [List.foldl_cons, List.map_cons]
    rw [mapassign_fresh acc e.1 (f e.2) hfresh, ih _ hnext]
    simp

theorem foldl_mapassign_nil {α β : Type} (f : α → β) (es : List (String × α))
    (h : keysDistinct es = true) :
    es.foldl (fun res e => mapassign res e.1 (f e.2)) []
      = es.map (fun e => (e.1, f e.2)) := by
  have hd : (keys ([] : List (String × β)) ++ keys es).Nodup := by
    simpa [keys, keysDistinct] using h
  simpa using foldl_mapassign f es [] hd

/-- The map a range loop builds does not depend on the order in which the entries
are visited: visiting a rearrangement of distinct-keyed entries gives a
rearrangement of the same entries. -/
theorem foldl_mapassign_perm {α β : Type} (f : α → β) (es1 es2 : List (String × α))
    (hp : es1.Perm es2) (h : keysDistinct es2 = true) :
    (es1.foldl (fun res e => mapassign res e.1 (f e.2)) []).Perm
      (es2.foldl (fun res e => mapassign res e.1 (f e.2)) []) := by
  have h1 : keysDistinct es1 = true := by
    have hk : (keys es1).Perm (keys es2) := hp.map Prod.fst
    have hn : (keys es2).Nodup := by simpa [keysDistinct] using h
    simpa [keysDistinct] using hk.nodup_iff.mpr hn
  rw [foldl_mapassign_nil f es1 h1, foldl_mapassign_nil f es2 h]
  exact hp.map _

theorem keys_map_snd {α β : Type} (f : α → β) (es : List (String × α)) :
    keys (es.map (fun e => (e.1, f e.2))) = keys es := by
  simp [keys, Function.comp_def]

theorem mapaccess_map_snd {α β : Type} (f : α → β) (es : List (String × α)) (k : String) :
    mapaccess (es.map (fun e => (e.1, f e.2))) k = (mapaccess es k).map f := by
  induction es with
  | nil => rfl
  | cons e rest ih =>
    obtain ⟨k1, v1⟩ := e
    by_cases hk : k1 = k
    · simp [mapaccess, hk]
    · simp [mapaccess, hk, ih]

theorem mapPayloadFields_eq_foldl (widen : GoFloat32 → GoFloat64)
    (es : List (String × HostValue)) :
    ∀ acc, mapPayloadFields widen es acc
      = es.foldl (fun res e => mapassign res e.1 (mapPayload widen e.2)) acc := by
  induction es with
  | nil => intro acc; simp [mapPayloadFields]
  | cons e rest ih =>
    intro acc
    obtain ⟨k, v⟩ := e
    simp [mapPayloadFields, ih]

theorem getPayloadFields_eq_foldl (es : List (String × Value)) :
    ∀ acc, getPayloadFields es acc
      = es.foldl (fun res e => mapassign res e.1 (getPayload e.2)) acc := by
  induction es with
  | nil => intro acc; simp [getPayloadFields]
  | cons e rest ih =>
    intro acc
    obtain ⟨k, v⟩ := e
    simp [getPayloadFields, ih]

theorem mapPayloadFields_distinct (widen : GoFloat32 → GoFloat64)
    (es : List (String × HostValue)) (h : keysDistinct es = true) :
    mapPayloadFields widen es [] = es.map (fun e => (e.1, mapPayload widen e.2)) := by
  rw [mapPayloadFields_eq_foldl, foldl_mapassign_nil _ es h]

theorem getPayloadFields_distinct (es : List (String × Value)) (h : keysDistinct es = true) :
    getPayloadFields es [] = es.map (fun e => (e.1, getPayload e.2)) := by
  rw [getPayloadFields_eq_foldl, foldl_mapassign_nil _ es h]

theorem mapPayloadList_eq_map (widen : GoFloat32 → GoFloat64) (xs : List HostValue) :
    mapPayloadList widen xs = xs.map (mapPayload widen) := by
  induction xs with
  | nil => simp [mapPayloadList]
  | cons x rest ih => simp [mapPayloadList, ih]

theorem getPayloadList_eq_map (ts : List Value) :
    getPayloadList ts = ts.map getPayload := by
  induction ts with
  | nil => simp [getPayloadList]
  | cons x rest ih => simp [getPayloadList, ih]

/-! ## The encoder returns well-formed Tagged Values -/

theorem keys_mapassign {α : Type} (acc : List (String × α)) (k : String) (v : α) :
    keys (mapassign acc k v) = if k ∈ keys acc then keys acc else keys acc ++ [k] := by
  induction acc with
  | nil => simp [mapassign, keys]
  | cons e rest ih =>
    obtain ⟨k1, v1⟩ := e
    by_cases hk : k1 = k
    · subst hk
      simp [mapassign, keys]
    · have hk2 : ¬ k = k1 := fun h => hk h.symm
      have ih2 : List.map Prod.fst (mapassign rest k v)
          = if k ∈ List.map Prod.fst rest then List.map Prod.fst rest
            else List.map Prod.fst rest ++ [k] := ih
      by_cases hmem : k ∈ List.map Prod.fst rest
      · simp only [mapassign, keys, hk, if_false, List.map_cons, ih2, hmem, if_true,
          List.mem_cons, or_true]
      · simp only [mapassign, keys, hk, if_false, List.map_cons, ih2, hmem, List.mem_cons,
          hk2, or_self, List.cons_append]

theorem keysDistinct_mapassign {α : Type} (acc : List (String × α)) (k : String) (v : α)
    (h : keysDistinct acc = true) : keysDistinct (mapassign acc k v) = true := by
  have hn : (keys acc).Nodup := by simpa [keysDistinct] using h
  have : (keys (mapassign acc k v)).Nodup := by
    rw [keys_mapassign]
    split
    · exact hn
    · rename_i hk
      exact List.nodup_append.mpr ⟨hn, List.nodup_singleton k, by
        intro a ha hb
        simp at hb
        subst hb
        exact hk ha⟩
  simpa [keysDistinct] using this

theorem valueWellFormedFields_mapassign (acc : List (String × Value)) (k : String) (v : Value)
    (h : valueWellFormedFields acc = true) (hv : v.wellFormed = true) :
    valueWellFormedFields (mapassign acc k v) = true := by
  induction acc with
  | nil => simp [mapassign, valueWellFormedFields, hv]
  | cons e rest ih =>
    obtain ⟨k1, v1⟩ := e
    have h2 : v1.wellFormed = true ∧ valueWellFormedFields rest = true := by
      simpa [valueWellFormedFields] using h
    by_cases hk : k1 = k
    · simp [mapassign, hk, valueWellFormedFields, hv, h2.2]
    · simp [mapassign, hk, valueWellFormedFields, h2.1, ih h2.2]

mutual
/-- Every value `mapPayload` returns is a well-formed Tagged Value: no Struct in it
has a repeated key. -/
theorem mapPayload_wellFormed (widen : GoFloat32 → GoFloat64) :
    (v : HostValue) → (mapPayload widen v).wellFormed = true
  | .slice (some xs) => by
    simpa [mapPayload, Value.wellFormed] using mapPayloadList_wellFormed widen xs
  | .map (some fs) => by
    have ih := mapPayloadFields_wellFormed widen fs [] (by decide) (by decide)
    simpa [mapPayload, Value.wellFormed] using ih
  | .slice none => rfl
  | .map none => rfl
  | .emptyStruct => rfl
  | .nil => by simp [mapPayload, Value.wellFormed]
  | .other _ => by simp [mapPayload, Value.wellFormed]
  | .str _ => by simp [mapPayload, Value.wellFormed]
  | .uint _ => by simp [mapPayload, Value.wellFormed]
  | .uint8 _ => by simp [mapPayload, Value.wellFormed]
  | .uint16 _ => by simp [mapPayload, Value.wellFormed]
  | .uint32 _ => by simp [mapPayload, Value.wellFormed]
  | .uint64 _ => by simp [mapPayload, Value.wellFormed]
  | .int _ => by simp [mapPayload, Value.wellFormed]
  | .int8 _ => by simp [mapPayload, Value.wellFormed]
  | .int16 _ => by simp [mapPayload, Value.wellFormed]
  | .int32 _ => by simp [mapPayload, Value.wellFormed]
  | .int64 _ => by simp [mapPayload, Value.wellFormed]
  | .float32 _ => by simp [mapPayload, Value.wellFormed]
  | .float64 _ => by simp [mapPayload, Value.wellFormed]
  | .bool _ => by simp [mapPayload, Value.wellFormed]
/-- The same for the elements of an encoded slice. -/
theorem mapPayloadList_wellFormed (widen : GoFloat32 → GoFloat64) :
    (xs : List HostValue) → valueWellFormedList (mapPayloadList widen xs) = true
  | [] => by simp [mapPayloadList, valueWellFormedList]
  | x :: rest => by
    simp [mapPayloadList, valueWellFormedList, mapPayload_wellFormed widen x,
      mapPayloadList_wellFormed widen rest]
/-- The same for the map an encoding loop builds, from any well-formed start. -/
theorem mapPayloadFields_wellFormed (widen : GoFloat32 → GoFloat64) :
    (fs : List (String × HostValue)) → (acc : List (String × Value)) →
      keysDistinct acc = true → valueWellFormedFields acc = true →
      keysDistinct (mapPayloadFields widen fs acc) = true ∧
        valueWellFormedFields (mapPayloadFields widen fs acc) = true
  | [], acc, h1, h2 => by simp [mapPayloadFields, h1, h2]
  | (k, x) :: rest, acc, h1, h2 => by
    have hx := mapPayload_wellFormed widen x
    have ih := mapPayloadFields_wellFormed widen rest (mapassign acc k (mapPayload widen x))
      (keysDistinct_mapassign acc k _ h1) (valueWellFormedFields_mapassign acc k _ h2 hx)
    simpa [mapPayloadFields] using ih
end

/-! ## Decoding an encoded value -/

theorem keysDistinct_map_snd {α β : Type} (f : α → β) (es : List (String × α))
    (h : keysDistinct es = true) : keysDistinct (es.map (fun e => (e.1, f e.2))) = true := by
  simpa [keysDistinct, keys_map_snd] using h

/-- Decoding the encoding of a map with distinct keys converts the entries one by one. -/
theorem getPayload_mapPayload_map (widen : GoFloat32 → GoFloat64)
    (fs : List (String × HostValue)) (h : keysDistinct fs = true) :
    getPayload (mapPayload widen (.map (some fs)))
      = .map (some (fs.map (fun e => (e.1, getPayload (mapPayload widen e.2))))) := by
  simp only [mapPayload, getPayload]
  rw [mapPayloadFields_distinct widen fs h,
    getPayloadFields_distinct _ (keysDistinct_map_snd _ fs h)]
  simp [List.map_map, Function.comp_def]

mutual
/-- Decoding the encoding of a supported, well-formed value gives the shape of
the normalised value. -/
theorem getPayload_mapPayload_shape (widen : GoFloat32 → GoFloat64) :
    (v : HostValue) → v.supported = true → v.wellFormed = true →
      getPayload (mapPayload widen v) = (normalize widen v).shape
  | .nil, hs, _ => by simp [HostValue.supported] at hs
  | .emptyStruct, hs, _ => by simp [HostValue.supported] at hs
  | .other _, hs, _ => by simp [HostValue.supported] at hs
  | .str _, _, _ => by simp [mapPayload, getPayload, normalize, HostValue.shape]
  | .uint _, _, _ => by simp [mapPayload, getPayload, normalize, HostValue.shape]
  | .uint8 _, _, _ => by simp [mapPayload, getPayload, normalize, HostValue.shape]
  | .uint16 _, _, _ => by simp [mapPayload, getPayload, normalize, HostValue.shape]
  | .uint32 _, _, _ => by simp [mapPayload, getPayload, normalize, HostValue.shape]
  | .uint64 _, _, _ => by simp [mapPayload, getPayload, normalize, HostValue.shape]
  | .int _, _, _ => by simp [mapPayload, getPayload, normalize, HostValue.shape]
  | .int8 _, _, _ => by simp [mapPayload, getPayload, normalize, HostValue.shape]
  | .int16 _, _, _ => by simp [mapPayload, getPayload, normalize, HostValue.shape]
  | .int32 _, _, _ => by simp [mapPayload, getPayload, normalize, HostValue.shape]
  | .int64 _, _, _ => by simp [mapPayload, getPayload, normalize, HostValue.shape]
  | .float32 _, _, _ => by simp [mapPayload, getPayload, normalize, HostValue.shape]
  | .float64 _, _, _ => by simp [mapPayload, getPayload, normalize, HostValue.shape]
  | .bool _, _, _ => by simp [mapPayload, getPayload, normalize, HostValue.shape]
  | .slice none, _, _ => by
    simp [mapPayload, getPayload, getPayloadList, normalize, HostValue.shape]
  | .map none, _, _ => by
    simp [mapPayload, getPayload, getPayloadFields, normalize, HostValue.shape]
  | .slice (some xs), hs, hw => by
    have ih := getPayload_mapPayload_shapeList widen xs
      (by simpa [HostValue.supported] using hs) (by simpa [HostValue.wellFormed] using hw)
    simp [mapPayload, getPayload, normalize, HostValue.shape, ih]
  | .map (some fs), hs, hw => by
    have hw2 : keysDistinct fs = true ∧ wellFormedFields fs = true := by
      simpa [HostValue.wellFormed] using hw
    have ih := getPayload_mapPayload_shapeFields widen fs
      (by simpa [HostValue.supported] using hs) hw2.2
    rw [getPayload_mapPayload_map widen fs hw2.1, ih]
    simp [normalize, HostValue.shape]
/-- The same, element by element of a slice. -/
theorem getPayload_mapPayload_shapeList (widen : GoFloat32 → GoFloat64) :
    (xs : List HostValue) → supportedList xs = true → wellFormedList xs = true →
      getPayloadList (mapPayloadList widen xs) = shapeList (normalizeList widen xs)
  | [], _, _ => by simp [mapPayloadList, getPayloadList, normalizeList, shapeList]
  | x :: rest, hs, hw => by
    have hs2 : x.supported = true ∧ supportedList rest = true := by
      simpa [supportedList] using hs
    have hw2 : x.wellFormed = true ∧ wellFormedList rest = true := by
      simpa [wellFormedList] using hw
    have ih1 := getPayload_mapPayload_shape widen x hs2.1 hw2.1
    have ih2 := getPayload_mapPayload_shapeList widen rest hs2.2 hw2.2
    simp [mapPayloadList, getPayloadList, normalizeList, shapeList, ih1, ih2]
/-- The same, entry by entry of a map. -/
theorem getPayload_mapPayload_shapeFields (widen : GoFloat32 → GoFloat64) :
    (fs : List (String × HostValue)) → supportedFields fs = true → wellFormedFields fs = true →
      fs.map (fun e => (e.1, getPayload (mapPayload widen e.2)))
        = shapeFields (normalizeFields widen fs)
  | [], _, _ => by simp [normalizeFields, shapeFields]
  | (k, x) :: rest, hs, hw => by
    have hs2 : x.supported = true ∧ supportedFields rest = true := by
      simpa [supportedFields] using hs
    have hw2 : x.wellFormed = true ∧ wellFormedFields rest = true := by
      simpa [wellFormedFields] using hw
    have ih1 := getPayload_mapPayload_shape widen x hs2.1 hw2.1
    have ih2 := getPayload_mapPayload_shapeFields widen rest hs2.2 hw2.2
    simp [normalizeFields, shapeFields, ih1, ih2]
end

mutual
/-- Taking the shape twice changes nothing more. -/
theorem shape_idem : (v : HostValue) → v.shape.shape = v.shape
  | .slice none => by simp [HostValue.shape, shapeList]
  | .map none => by simp [HostValue.shape, shapeFields]
  | .slice (some xs) => by simp [HostValue.shape, shapeList_idem xs]
  | .map (some fs) => by simp [HostValue.shape, shapeFields_idem fs]
  | .nil => by simp [HostValue.shape]
  | .emptyStruct => by simp [HostValue.shape]
  | .other _ => by simp [HostValue.shape]
  | .str _ => by simp [HostValue.shape]
  | .uint _ => by simp [HostValue.shape]
  | .uint8 _ => by simp [HostValue.shape]
  | .uint16 _ => by simp [HostValue.shape]
  | .uint32 _ => by simp [HostValue.shape]
  | .uint64 _ => by simp [HostValue.shape]
  | .int _ => by simp [HostValue.shape]
  | .int8 _ => by simp [HostValue.shape]
  | .int16 _ => by simp [HostValue.shape]
  | .int32 _ => by simp [HostValue.shape]
  | .int64 _ => by simp [HostValue.shape]
  | .float32 _ => by simp [HostValue.shape]
  | .float64 _ => by simp [HostValue.shape]
  | .bool _ => by simp [HostValue.shape]
/-- The same, element by element. -/
theorem shapeList_idem : (xs : List HostValue) →
    shapeList (shapeList xs) = shapeList xs
  | [] => by simp [shapeList]
  | x :: rest => by simp [shapeList, shape_idem x, shapeList_idem rest]
/-- The same, entry by entry. -/
theorem shapeFields_idem : (fs : List (String × HostValue)) →
    shapeFields (shapeFields fs) = shapeFields fs
  | [] => by simp [shapeFields]
  | (k, x) :: rest => by simp [shapeFields, shape_idem x, shapeFields_idem rest]
end

mutual
/-- A normalised value without nil slices and nil maps is its own shape. -/
theorem shape_normalize_of_nilFree (widen : GoFloat32 → GoFloat64) :
    (v : HostValue) → v.nilFree = true → (normalize widen v).shape = normalize widen v
  | .slice none, h => by simp [HostValue.nilFree] at h
  | .map none, h => by simp [HostValue.nilFree] at h
  | .slice (some xs), h => by
    have ih := shapeList_normalize_of_nilFree widen xs (by simpa [HostValue.nilFree] using h)
    simp [normalize, HostValue.shape, ih]
  | .map (some fs), h => by
    have ih := shapeFields_normalize_of_nilFree widen fs
      (by simpa [HostValue.nilFree] using h)
    simp [normalize, HostValue.shape, ih]
  | .nil, _ => by simp [normalize, HostValue.shape]
  | .emptyStruct, _ => by simp [normalize, HostValue.shape]
  | .other _, _ => by simp [normalize, HostValue.shape]
  | .str _, _ => by simp [normalize, HostValue.shape]
  | .uint _, _ => by simp [normalize, HostValue.shape]
  | .uint8 _, _ => by simp [normalize, HostValue.shape]
  | .uint16 _, _ => by simp [normalize, HostValue.shape]
  | .uint32 _, _ => by simp [normalize, HostValue.shape]
  | .uint64 _, _ => by simp [normalize, HostValue.shape]
  | .int _, _ => by simp [normalize, HostValue.shape]
  | .int8 _, _ => by simp [normalize, HostValue.shape]
  | .int16 _, _ => by simp [normalize, HostValue.shape]
  | .int32 _, _ => by simp [normalize, HostValue.shape]
  | .int64 _, _ => by simp [normalize, HostValue.shape]
  | .float32 _, _ => by simp [normalize, HostValue.shape]
  | .float64 _, _ => by simp [normalize, HostValue.shape]
  | .bool _, _ => by simp [normalize, HostValue.shape]
/-- The same, element by element. -/
theorem shapeList_normalize_of_nilFree (widen : GoFloat32 → GoFloat64) :
    (xs : List HostValue) → nilFreeList xs = true →
      shapeList (normalizeList widen xs) = normalizeList widen xs
  | [], _ => by simp [normalizeList, shapeList]
  | x :: rest, h => by
    have h2 : x.nilFree = true ∧ nilFreeList rest = true := by
      simpa [nilFreeList] using h
    simp [normalizeList, shapeList, shape_normalize_of_nilFree widen x h2.1,
      shapeList_normalize_of_nilFree widen rest h2.2]
/-- The same, entry by entry. -/
theorem shapeFields_normalize_of_nilFree (widen : GoFloat32 → GoFloat64) :
    (fs : List (String × HostValue)) → nilFreeFields fs = true →
      shapeFields (normalizeFields widen fs) = normalizeFields widen fs
  | [], _ => by simp [normalizeFields, shapeFields]
  | (k, x) :: rest, h => by
    have h2 : x.nilFree = true ∧ nilFreeFields rest = true := by
      simpa [nilFreeFields] using h
    simp [normalizeFields, shapeFields, shape_normalize_of_nilFree widen x h2.1,
      shapeFields_normalize_of_nilFree widen rest h2.2]
end

/-! ## Encoding a decoded value -/

/-- Encoding the decoding of a Struct with distinct keys converts the fields one by one. -/
theorem mapPayload_getPayload_struct (widen : GoFloat32 → GoFloat64)
    (fs : List (String × Value)) (h : keysDistinct fs = true) :
    mapPayload widen (getPayload (.struct fs))
      = .struct (fs.map (fun e => (e.1, mapPayload widen (getPayload e.2)))) := by
  simp only [mapPayload, getPayload]
  rw [getPayloadFields_distinct fs h,
    mapPayloadFields_distinct widen _ (keysDistinct_map_snd _ fs h)]
  simp [List.map_map, Function.comp_def]

mutual
/-- Encoding the decoding of a well-formed Tagged Value gives the value back. -/
theorem mapPayload_getPayload_id (widen : GoFloat32 → GoFloat64) :
    (t : Value) → t.wellFormed = true → mapPayload widen (getPayload t) = t
  | .null, _ => by simp [mapPayload, getPayload]
  | .bool _, _ => by simp [mapPayload, getPayload]
  | .integer _, _ => by simp [mapPayload, getPayload]
  | .double _, _ => by simp [mapPayload, getPayload]
  | .string _, _ => by simp [mapPayload, getPayload]
  | .list ts, hw => by
    have ih := mapPayload_getPayload_idList widen ts (by simpa [Value.wellFormed] using hw)
    simp [mapPayload, getPayload, ih]
  | .struct fs, hw => by
    have hw2 : keysDistinct fs = true ∧ valueWellFormedFields fs = true := by
      simpa [Value.wellFormed] using hw
    rw [mapPayload_getPayload_struct widen fs hw2.1,
      mapPayload_getPayload_idFields widen fs hw2.2]
/-- The same, element by element of a List. -/
theorem mapPayload_getPayload_idList (widen : GoFloat32 → GoFloat64) :
    (ts : List Value) → valueWellFormedList ts = true →
      mapPayloadList widen (getPayloadList ts) = ts
  | [], _ => by simp [mapPayloadList, getPayloadList]
  | t :: rest, hw => by
    have hw2 : t.wellFormed = true ∧ valueWellFormedList rest = true := by
      simpa [valueWellFormedList] using hw
    simp [mapPayloadList, getPayloadList, mapPayload_getPayload_id widen t hw2.1,
      mapPayload_getPayload_idList widen rest hw2.2]
/-- The same, field by field of a Struct. -/
theorem mapPayload_getPayload_idFields (widen : GoFloat32 → GoFloat64) :
    (fs : List (String × Value)) → valueWellFormedFields fs = true →
      fs.map (fun e => (e.1, mapPayload widen (getPayload e.2))) = fs
  | [], _ => by simp
  | (k, t) :: rest, hw => by
    have hw2 : t.wellFormed = true ∧ valueWellFormedFields rest = true := by
      simpa [valueWellFormedFields] using hw
    simp [mapPayload_getPayload_id widen t hw2.1,
      mapPayload_getPayload_idFields widen rest hw2.2]
end

/-- Every value `getPayload` returns is nil or of a type `mapPayload` recognises. -/
theorem getPayload_recognised (t : Value) :
    getPayload t = .nil ∨ (getPayload t).recognised = true := by
  cases t <;> simp [getPayload, HostValue.recognised]

/-! ## The point loop of Upsert -/

theorem traverseList_some {α β : Type} (f : α → Option β) (xs : List α)
    (h : ∀ x, x ∈ xs → ∃ y, f x = some y) : ∃ ys, traverseList f xs = some ys := by
  induction xs with
  | nil => exact ⟨[], rfl⟩
  | cons x rest ih =>
    obtain ⟨y, hy⟩ := h x (by simp)
    obtain ⟨ys, hys⟩ := ih (fun z hz => h z (by simp [hz]))
    exact ⟨y :: ys, by simp [traverseList, hy, hys]⟩

theorem traverseValues_some {α β : Type} (f : α → Option β) (es : List (String × α))
    (h : ∀ e, e ∈ es → ∃ y, f e.2 = some y) : ∃ fs, traverseValues f es = some fs := by
  induction es with
  | nil => exact ⟨[], rfl⟩
  | cons e rest ih =>
    obtain ⟨k, x⟩ := e
    obtain ⟨y, hy⟩ := h (k, x) (by simp)
    obtain ⟨fs, hfs⟩ := ih (fun z hz => h z (by simp [hz]))
    exact ⟨(k, y) :: fs, by simp [traverseValues, hy, hfs]⟩

/-- Where reading back succeeds on every element, encoding the elements by
reference gives the encoding of the trees read back. -/
theorem traverseList_encode (widen : GoFloat32 → GoFloat64) (g : RefValue → Option HostValue)
    (f : RefValue → Option Value)
    (hfg : ∀ x tree, g x = some tree → f x = some (mapPayload widen tree)) :
    ∀ (xs : List RefValue) (trees : List HostValue), traverseList g xs = some trees →
      traverseList f xs = some (mapPayloadList widen trees) := by
  intro xs
  induction xs with
  | nil =>
    intro trees h
    simp [traverseList] at h
    subst h
    rfl
  | cons x rest ih =>
    intro trees h
    cases hx : g x with
    | none => simp [traverseList, hx] at h
    | some tree =>
      cases hr : traverseList g rest with
      | none => simp [traverseList, hx, hr] at h
      | some ts =>
        simp [traverseList, hx, hr] at h
        subst h
        simp [traverseList, hfg x tree hx, ih ts hr, mapPayloadList]

/-- The same for the entries of a map, from any map built so far. -/
theorem traverseEntries_encode (widen : GoFloat32 → GoFloat64)
    (g : RefValue → Option HostValue) (f : RefValue → Option Value)
    (hfg : ∀ x tree, g x = some tree → f x = some (mapPayload widen tree)) :
    ∀ (es : List (String × RefValue)) (fs : List (String × HostValue))
      (payload : List (String × Value)), traverseValues g es = some fs →
      traverseEntries f es payload = some (mapPayloadFields widen fs payload) := by
  intro es
  induction es with
  | nil =>
    intro fs payload h
    simp [traverseValues] at h
    subst h
    rfl
  | cons e rest ih =>
    intro fs payload h
    obtain ⟨k, x⟩ := e
    cases hx : g x with
    | none => simp [traverseValues, hx] at h
    | some tree =>
      cases hr : traverseValues g rest with
      | none => simp [traverseValues, hx, hr] at h
      | some ts =>
        simp [traverseValues, hx, hr] at h
        subst h
        simp [traverseEntries, hfg x tree hx, mapPayloadFields, ih ts _ hr]

/-- On a reference value that denotes a finite tree within the depth bound, the
encoder on references returns, and returns the encoding of that tree. -/
theorem mapPayloadRef_of_readBack (widen : GoFloat32 → GoFloat64) (st : Store) :
    ∀ (depth : Nat) (v : RefValue) (tree : HostValue), readBack st depth v = some tree →
      mapPayloadRef widen st depth v = some (mapPayload widen tree) := by
  intro depth
  induction depth with
  | zero =>
    intro v tree h
    simp [readBack] at h
  | succ d ih =>
    intro v tree h
    cases v with
    | slice ref =>
      cases ref with
      | none =>
        simp [readBack] at h
        subst h
        rfl
      | some a =>
        cases hr : traverseList (readBack st d) (st.slices a) with
        | none => simp [readBack, hr] at h
        | some xs =>
          simp [readBack, hr] at h
          subst h
          simp [mapPayloadRef, mapPayload,
            traverseList_encode widen (readBack st d) (mapPayloadRef widen st d) ih _ xs hr]
    | map ref =>
      cases ref with
      | none =>
        simp [readBack] at h
        subst h
        rfl
      | some a =>
        cases hr : traverseValues (readBack st d) (st.maps a) with
        | none => simp [readBack, hr] at h
        | some fs =>
          simp [readBack, hr] at h
          subst h
          simp [mapPayloadRef, mapPayload,
            traverseEntries_encode widen (readBack st d) (mapPayloadRef widen st d) ih _ fs
              [] hr]
    | _ =>
      simp [readBack] at h
      subst h
      rfl

/-- Where every slice and map ranks above its contents, every reference value
denotes a finite tree, read back within any depth above its rank. -/
theorem readBack_of_rank (st : Store) (rank : RefValue → Nat)
    (hs : ∀ a x, x ∈ st.slices a → rank x < rank (.slice (some a)))
    (hm : ∀ a e, e ∈ st.maps a → rank e.2 < rank (.map (some a))) :
    ∀ (depth : Nat) (v : RefValue), rank v < depth →
      ∃ tree, readBack st depth v = some tree := by
  intro depth
  induction depth with
  | zero =>
    intro v h
    omega
  | succ d ih =>
    intro v h
    cases v with
    | slice ref =>
      cases ref with
      | none => exact ⟨_, rfl⟩
      | some a =>
        obtain ⟨xs, hxs⟩ := traverseList_some (readBack st d) (st.slices a)
          (fun x hx => ih x (by have := hs a x hx; omega))
        exact ⟨.slice (some xs), by simp [readBack, hxs]⟩
    | map ref =>
      cases ref with
      | none => exact ⟨_, rfl⟩
      | some a =>
        obtain ⟨fs, hfs⟩ := traverseValues_some (readBack st d) (st.maps a)
          (fun e he => ih e.2 (by have := hm a e he; omega))
        exact ⟨.map (some fs), by simp [readBack, hfs]⟩
    | _ => exact ⟨_, rfl⟩

/-- On the slice that is its own first element no depth bound suffices. -/
theorem mapPayloadRef_cyclic (widen : GoFloat32 → GoFloat64) :
    ∀ depth : Nat, mapPayloadRef widen cyclicStore depth (.slice (some 0)) = none := by
  intro depth
  induction depth with
  | zero => rfl
  | succ d ih =>
    have hs : cyclicStore.slices 0 = [.slice (some 0)] := rfl
    simp [mapPayloadRef, hs, traverseList, ih]

theorem exampleStore_slices_rank :
    ∀ a x, x ∈ exampleStore.slices a → exampleRank x < exampleRank (.slice (some a)) := by
  intro a x hx
  match a with
  | 0 =>
    have hx2 : x = .bool true ∨ x = .other "chan int" := by
      simpa [exampleStore] using hx
    rcases hx2 with h | h <;> subst h <;> decide
  | 1 =>
    have hx2 : x = .str "a" ∨ x = .slice (some 0) ∨ x = .map (some 0) ∨ x = .slice none := by
      simpa [exampleStore] using hx
    rcases hx2 with h | h | h | h <;> subst h <;> decide
  | n + 2 => simp [exampleStore] at hx

theorem exampleStore_maps_rank :
    ∀ a e, e ∈ exampleStore.maps a → exampleRank e.2 < exampleRank (.map (some a)) := by
  intro a e he
  match a with
  | 0 =>
    have he2 : e = ("k", .slice (some 0)) ∨ e = ("n", .uint8 3) := by
      simpa [exampleStore] using he
    rcases he2 with h | h <;> subst h <;> decide
  | n + 1 => simp [exampleStore] at he

/-! ## The claims -/

/-- C1 (round-trip law): for every well-formed host value `v` built from strings,
booleans, the fixed-width integer types, floats, `[]interface{}` and
`map[string]interface{}`, nested to any depth, `getPayload (mapPayload v)` is
structurally equal to `v` with every integer normalised to int64 and every float
to float64 (a nil and an empty slice or map being structurally equal); when `v`
holds no nil slice and no nil map the two are the same value. -/
theorem roundtrip_law (widen : GoFloat32 → GoFloat64) (v : HostValue)
    (hs : v.supported = true) (hw : v.wellFormed = true) :
    StructEq (getPayload (mapPayload widen v)) (normalize widen v) ∧
      (v.nilFree = true → getPayload (mapPayload widen v) = normalize widen v) := by
  constructor
  · unfold StructEq
    rw [getPayload_mapPayload_shape widen v hs hw, shape_idem]
  · intro hn
    rw [getPayload_mapPayload_shape widen v hs hw, shape_normalize_of_nilFree widen v hn]

theorem roundtrip_law_witness :
    (exampleHostValue.supported = true ∧ exampleHostValue.wellFormed = true ∧
      StructEq (getPayload (mapPayload widenIEEE exampleHostValue))
        (normalize widenIEEE exampleHostValue)) ∧
    (exampleNilFreeValue.supported = true ∧ exampleNilFreeValue.wellFormed = true ∧
      exampleNilFreeValue.nilFree = true ∧
      getPayload (mapPayload widenIEEE exampleNilFreeValue)
        = normalize widenIEEE exampleNilFreeValue) :=
  ⟨⟨by decide, by decide,
      (roundtrip_law widenIEEE exampleHostValue (by decide) (by decide)).1⟩,
    ⟨by decide, by decide, by decide,
      (roundtrip_law widenIEEE exampleNilFreeValue (by decide) (by decide)).2 (by decide)⟩⟩

/-- C2, as the code has it: on every host value of any dynamic type whose slices
and maps nest to a finite depth (every slice and map ranks above its contents, so
none contains itself), `mapPayload` returns within every call depth above the rank
of the value; the result is the encoding of the finite tree the value denotes, a
well-formed Tagged Value, and it is Null for every value whose dynamic type the
switch does not list (the nil interface included). -/
theorem mapPayload_returns_on_finite_values (widen : GoFloat32 → GoFloat64) (st : Store)
    (rank : RefValue → Nat)
    (hs : ∀ a x, x ∈ st.slices a → rank x < rank (.slice (some a)))
    (hm : ∀ a e, e ∈ st.maps a → rank e.2 < rank (.map (some a)))
    (v : RefValue) (depth : Nat) (hd : rank v < depth) :
    (∃ tree t, readBack st depth v = some tree ∧
        mapPayloadRef widen st depth v = some t ∧
        t = mapPayload widen tree ∧ t.wellFormed = true) ∧
      (v.recognised = false → mapPayloadRef widen st depth v = some Value.null) := by
  obtain ⟨tree, htree⟩ := readBack_of_rank st rank hs hm depth v hd
  refine ⟨⟨tree, mapPayload widen tree, htree,
    mapPayloadRef_of_readBack widen st depth v tree htree, rfl,
    mapPayload_wellFormed widen tree⟩, ?_⟩
  intro hr
  cases depth with
  | zero => omega
  | succ d =>
    cases v <;> first
      | rfl
      | (simp [RefValue.recognised] at hr)

/-- C2, counterexample: on the slice that is its own first element (`s[0] = s`), a
value of type `[]interface{}`, `mapPayload` returns within no call depth. -/
theorem mapPayload_cyclic_counterexample :
    ¬ ∃ (depth : Nat) (t : Value),
        mapPayloadRef widenIEEE cyclicStore depth (.slice (some 0)) = some t := by
  rintro ⟨depth, t, h⟩
  rw [mapPayloadRef_cyclic widenIEEE depth] at h
  exact Option.noConfusion h

theorem mapPayload_returns_on_finite_values_witness :
    (∀ a x, x ∈ exampleStore.slices a → exampleRank x < exampleRank (.slice (some a))) ∧
    (∀ a e, e ∈ exampleStore.maps a → exampleRank e.2 < exampleRank (.map (some a))) ∧
    exampleRank (.slice (some 1)) < 4 ∧
    ((∃ tree t, readBack exampleStore 4 (.slice (some 1)) = some tree ∧
        mapPayloadRef widenIEEE exampleStore 4 (.slice (some 1)) = some t ∧
        t = mapPayload widenIEEE tree ∧ t.wellFormed = true) ∧
      ((RefValue.slice (some 1)).recognised = false →
        mapPayloadRef widenIEEE exampleStore 4 (.slice (some 1)) = some Value.null)) ∧
    exampleRank (.other "chan int") < 1 ∧
    (RefValue.other "chan int").recognised = false ∧
    mapPayloadRef widenIEEE exampleStore 1 (.other "chan int") = some Value.null :=
  ⟨exampleStore_slices_rank, exampleStore_maps_rank, by decide,
    mapPayload_returns_on_finite_values widenIEEE exampleStore exampleRank
      exampleStore_slices_rank exampleStore_maps_rank (.slice (some 1)) 4 (by decide),
    by decide, rfl,
    (mapPayload_returns_on_finite_values widenIEEE exampleStore exampleRank
      exampleStore_slices_rank exampleStore_maps_rank (.other "chan int") 1 (by decide)).2 rfl⟩

/-- The encoding of the example slice, evaluated. -/
theorem mapPayloadRef_example :
    mapPayloadRef widenIEEE exampleStore 4 (.slice (some 1))
      = some (.list [.string "a", .list [.bool true, .null],
          .struct [("k", .list [.bool true, .null]), ("n", .integer 3)], .list []]) := by
  rfl

/-- C3 (lists keep order and count): for every slice `xs` of host values
`mapPayload` returns a List with `len xs` elements whose element at every index
`i` is `mapPayload xs[i]`; for every List with elements `ts`, `getPayload` returns a
slice with `len ts` elements whose element at every index `i` is `getPayload ts[i]`. -/
theorem list_order_and_count (widen : GoFloat32 → GoFloat64) (xs : GoSlice HostValue)
    (ts : List Value) :
    (∃ out, mapPayload widen (.slice xs) = .list out ∧ out.length = xs.len ∧
        ∀ i : Nat, out[i]? = (xs.elems[i]?).map (mapPayload widen)) ∧
      (∃ out, getPayload (.list ts) = .slice (some out) ∧ out.length = ts.length ∧
        ∀ i : Nat, out[i]? = (ts[i]?).map getPayload) := by
  constructor
  · cases xs with
    | none => exact ⟨[], rfl, rfl, by simp [GoSlice.elems]⟩
    | some l =>
      refine ⟨mapPayloadList widen l, rfl, ?_, ?_⟩
      · simp [mapPayloadList_eq_map, GoSlice.len, GoSlice.elems]
      · intro i
        simp [mapPayloadList_eq_map, GoSlice.elems]
  · refine ⟨getPayloadList ts, rfl, ?_, ?_⟩
    · simp [getPayloadList_eq_map]
    · intro i
      simp [getPayloadList_eq_map]

/-- C4 (structs keep their key set): for every mapping `m` with distinct keys
`mapPayload` returns a Struct with the keys of `m`, none repeated, whose value at
each key `k` is `mapPayload m[k]`; for every Struct with distinct-keyed fields `f`,
`getPayload` returns a mapping with the keys of `f`, none repeated, whose value at
each key `k` is `getPayload f[k]`. -/
theorem struct_key_set (widen : GoFloat32 → GoFloat64) (m : GoMap HostValue)
    (f : List (String × Value))
    (hm : keysDistinct m.entries = true) (hf : keysDistinct f = true) :
    (∃ fields, mapPayload widen (.map m) = .struct fields ∧ (keys fields).Nodup ∧
        (∀ k, k ∈ keys fields ↔ k ∈ keys m.entries) ∧
        ∀ k, mapaccess fields k = (mapaccess m.entries k).map (mapPayload widen)) ∧
      (∃ values, getPayload (.struct f) = .map (some values) ∧ (keys values).Nodup ∧
        (∀ k, k ∈ keys values ↔ k ∈ keys f) ∧
        ∀ k, mapaccess values k = (mapaccess f k).map getPayload) := by
  constructor
  · cases m with
    | none =>
      exact ⟨[], rfl, by simp [keys], by simp [keys, GoMap.entries],
        by simp [mapaccess, GoMap.entries]⟩
    | some es =>
      have hes : keysDistinct es = true := hm
      refine ⟨es.map (fun e => (e.1, mapPayload widen e.2)), ?_, ?_, ?_, ?_⟩
      · simp [mapPayload, mapPayloadFields_distinct widen es hes]
      · rw [keys_map_snd]; simpa [keysDistinct] using hes
      · intro k; rw [keys_map_snd]; rfl
      · intro k; exact mapaccess_map_snd _ es k
  · refine ⟨f.map (fun e => (e.1, getPayload e.2)), ?_, ?_, ?_, ?_⟩
    · simp [getPayload, getPayloadFields_distinct f hf]
    · rw [keys_map_snd]; simpa [keysDistinct] using hf
    · intro k; rw [keys_map_snd]
    · intro k; exact mapaccess_map_snd _ f k

theorem struct_key_set_witness :
    keysDistinct examplePayload.entries = true ∧ keysDistinct exampleFields = true ∧
      ((∃ fields, mapPayload widenIEEE (.map examplePayload) = .struct fields ∧
          (keys fields).Nodup ∧
          (∀ k, k ∈ keys fields ↔ k ∈ keys examplePayload.entries) ∧
          ∀ k, mapaccess fields k
            = (mapaccess examplePayload.entries k).map (mapPayload widenIEEE)) ∧
        (∃ values, getPayload (.struct exampleFields) = .map (some values) ∧
          (keys values).Nodup ∧
          (∀ k, k ∈ keys values ↔ k ∈ keys exampleFields) ∧
          ∀ k, mapaccess values k = (mapaccess exampleFields k).map getPayload)) :=
  ⟨by decide, by decide,
    struct_key_set widenIEEE examplePayload exampleFields (by decide) (by decide)⟩

/-- C5, as the code has it: `NewCollection` compares the metric name exactly, letter
case included: the creation request carries the dot-product metric exactly when the
name is "DOT", the cosine metric exactly when it is "COSINE", and the Euclidean
metric for every other name (so also for "dot" or "Cosine"). -/
theorem newCollection_metric_exact (create : CreateCollection → Option GoError)
    (name : String) (vec_size : Nat) (s : String) :
    ∃ vd, NewCollection create name vec_size s
        = create { collectionName := name,
                   vectorsConfigParams := { size := vec_size, distance := vd } } ∧
      (vd = Distance.Dot ↔ s = "DOT") ∧
      (vd = Distance.Cosine ↔ s = "COSINE") ∧
      (vd = Distance.Euclid ↔ (s ≠ "DOT" ∧ s ≠ "COSINE")) := by
  by_cases h1 : s = "DOT"
  · refine ⟨Distance.Dot, ?_, ?_, ?_, ?_⟩
    · simp [NewCollection, createCollectionRequest, h1]
    · simp [h1]
    · subst h1; simp
    · simp [h1]
  · by_cases h2 : s = "COSINE"
    · refine ⟨Distance.Cosine, ?_, ?_, ?_, ?_⟩
      · simp [NewCollection, createCollectionRequest, h2]
      · simp [h1]
      · simp [h2]
      · simp [h2]
    · refine ⟨Distance.Euclid, ?_, ?_, ?_, ?_⟩
      · simp [NewCollection, createCollectionRequest, h1, h2]
      · simp [h1]
      · simp [h2]
      · simp [h1, h2]

/-- C5, counterexample: "dot" equals "DOT" ignoring letter case and "Cosine" equals
"COSINE" ignoring letter case, yet the creation requests built for them carry the
Euclidean metric. -/
theorem newCollection_case_counterexample :
    equalIgnoringCase "dot" "DOT" = true ∧
      (createCollectionRequest "docs" 4 "dot").vectorsConfigParams.distance
        = Distance.Euclid ∧
      equalIgnoringCase "Cosine" "COSINE" = true ∧
      (createCollectionRequest "docs" 4 "Cosine").vectorsConfigParams.distance
        = Distance.Euclid := by
  decide

/-- The request of the two-point example, evaluated: each point carries its own
identifier, its own vector and the encoding of its own payload. -/
theorem upsertRequest_example :
    upsertRequest widenIEEE "docs" [exampleVector, exampleSecondVector]
        (some [examplePayload, exampleSecondPayload]) ["a", "b", "c"] true
      = .ok { collectionName := "docs", wait := some true,
              points :=
                [pointOf "a" (some [("tag", .string "a"), ("rank", .integer 7)])
                   [{ bits := 0x3F800000 }],
                 pointOf "b" (some [("tag", .list [.string "b", .integer (-1)])])
                   [{ bits := 0x40000000 }]] } := by
  rfl

/-- C7 (point codec round trip): for every identifier, vector and payload mapping
`m` with distinct keys, the wire point `Upsert` builds for them, read back as
`Search` reads a result point, gives the same identifier, the same vector, and a
non-nil payload mapping with the keys of `m`, none repeated, whose value at each
key `k` is `getPayload (mapPayload m[k])`. -/
theorem point_codec_roundtrip (widen : GoFloat32 → GoFloat64) (name : String) (id : String)
    (vec : List GoFloat32) (m : GoMap HostValue) (wait : Bool) (score : GoFloat32)
    (hm : keysDistinct m.entries = true) :
    ∃ pt payload,
      upsertRequest widen name [vec] (some [m]) [id] wait
        = .ok { collectionName := name, wait := some wait, points := [pt] } ∧
      readPoint { id := pt.id, payload := pt.payload, score := score, vectors := pt.vectors }
        = (id, vec, some payload, score) ∧
      (∀ (query : List GoFloat32) (limit : Nat),
        Search (fun _ => .ok [{ id := pt.id, payload := pt.payload, score := score,
                                vectors := pt.vectors }]) name query limit
          = .ok ([id], [vec], [some payload], [score])) ∧
      (keys payload).Nodup ∧
      (∀ k, k ∈ keys payload ↔ k ∈ keys m.entries) ∧
      ∀ k, mapaccess payload k
        = (mapaccess m.entries k).map (fun x => getPayload (mapPayload widen x)) := by
  have hd := keysDistinct_map_snd (mapPayload widen) m.entries hm
  have hget : getPayloadMap (some (m.entries.map (fun e => (e.1, mapPayload widen e.2))))
      = some (m.entries.map (fun e => (e.1, getPayload (mapPayload widen e.2)))) := by
    unfold getPayloadMap
    rw [show GoMap.entries (some (m.entries.map (fun e => (e.1, mapPayload widen e.2))))
        = m.entries.map (fun e => (e.1, mapPayload widen e.2)) from rfl]
    rw [foldl_mapassign_nil getPayload _ hd]
    simp [List.map_map, Function.comp_def]
  refine ⟨pointOf id (some (m.entries.map (fun e => (e.1, mapPayload widen e.2)))) vec,
    m.entries.map (fun e => (e.1, getPayload (mapPayload widen e.2))), ?_, ?_, ?_, ?_, ?_, ?_⟩
  · simp [upsertRequest, upsertPoints, upsertPayload, foldl_mapassign_nil _ m.entries hm]
  · simp [readPoint, pointOf, PointId.GetUuid, Vectors.GetVector, Vector.GetData, hget]
  · intro query limit
    simp [Search, readPoint, pointOf, PointId.GetUuid, Vectors.GetVector, Vector.GetData,
      hget]
  · rw [keys_map_snd (fun x => getPayload (mapPayload widen x))]
    simpa [keysDistinct] using hm
  · intro k
    rw [keys_map_snd (fun x => getPayload (mapPayload widen x))]
  · intro k
    exact mapaccess_map_snd (fun x => getPayload (mapPayload widen x)) m.entries k

theorem point_codec_roundtrip_witness :
    keysDistinct examplePayload.entries = true ∧
      ∃ pt payload,
        upsertRequest widenIEEE "docs" [exampleVector] (some [examplePayload]) ["id-1"] true
          = .ok { collectionName := "docs", wait := some true, points := [pt] } ∧
        readPoint { id := pt.id, payload := pt.payload, score := { bits := 0 },
                    vectors := pt.vectors }
          = ("id-1", exampleVector, some payload, { bits := 0 }) ∧
        (∀ (query : List GoFloat32) (limit : Nat),
          Search (fun _ => .ok [{ id := pt.id, payload := pt.payload,
                                  score := { bits := 0 }, vectors := pt.vectors }])
              "docs" query limit
            = .ok (["id-1"], [exampleVector], [some payload], [{ bits := 0 }])) ∧
        (keys payload).Nodup ∧
        (∀ k, k ∈ keys payload ↔ k ∈ keys examplePayload.entries) ∧
        ∀ k, mapaccess payload k
          = (mapaccess examplePayload.entries k).map
              (fun x => getPayload (mapPayload widenIEEE x)) :=
  ⟨by decide,
    point_codec_roundtrip widenIEEE "docs" "id-1" exampleVector examplePayload true
      { bits := 0 } (by decide)⟩

/-- C8 (absent payload): `getPayloadMap` of the nil wire payload map is a non-nil
mapping with no keys, and `getPayloadMap` of any wire payload map is never nil. -/
theorem getPayloadMap_never_nil :
    getPayloadMap none = some [] ∧
      (∀ plds : GoMap Value, getPayloadMap plds ≠ none) ∧
      ∀ plds : GoMap Value, ∃ res, getPayloadMap plds = some res := by
  refine ⟨rfl, ?_, ?_⟩
  · intro plds h
    simp [getPayloadMap] at h
  · intro plds
    exact ⟨_, rfl⟩

theorem toInt64_of_inRange (x : Int) (h1 : -(2 ^ 63) ≤ x) (h2 : x < 2 ^ 63) :
    toInt64 x = x := by
  unfold toInt64
  omega

theorem toInt64_of_large (x : Int) (h1 : 2 ^ 63 ≤ x) (h2 : x < 2 ^ 64) :
    toInt64 x = x - 2 ^ 64 := by
  unfold toInt64
  omega

theorem toInt64_unsigned (u : Nat) (h : u < 2 ^ 64) :
    toInt64 u = if u < 2 ^ 63 then (u : Int) else (u : Int) - 2 ^ 64 := by
  split
  · exact toInt64_of_inRange _ (by omega) (by omega)
  · exact toInt64_of_large _ (by omega) (by omega)

/-- C9 (integer encoding): a value of a signed integer type, or of an unsigned
type of at most 32 bits, is encoded as the Integer of the same numeric value; an
unsigned 64-bit value `u` (type uint64, or uint, which is at most 64 bits wide) is
encoded as Integer `u` when `u < 2^63` and as Integer `u - 2^64` otherwise. -/
theorem integer_encoding (widen : GoFloat32 → GoFloat64) :
    (∀ n : Nat, n < 2 ^ 8 → mapPayload widen (.uint8 n) = .integer n) ∧
    (∀ n : Nat, n < 2 ^ 16 → mapPayload widen (.uint16 n) = .integer n) ∧
    (∀ n : Nat, n < 2 ^ 32 → mapPayload widen (.uint32 n) = .integer n) ∧
    (∀ n : Nat, n < 2 ^ 32 → mapPayload widen (.uint n) = .integer n) ∧
    (∀ n : Int, -(2 ^ 63) ≤ n → n < 2 ^ 63 → mapPayload widen (.int n) = .integer n) ∧
    (∀ n : Int, -(2 ^ 7) ≤ n → n < 2 ^ 7 → mapPayload widen (.int8 n) = .integer n) ∧
    (∀ n : Int, -(2 ^ 15) ≤ n → n < 2 ^ 15 → mapPayload widen (.int16 n) = .integer n) ∧
    (∀ n : Int, -(2 ^ 31) ≤ n → n < 2 ^ 31 → mapPayload widen (.int32 n) = .integer n) ∧
    (∀ n : Int, -(2 ^ 63) ≤ n → n < 2 ^ 63 → mapPayload widen (.int64 n) = .integer n) ∧
    (∀ u : Nat, u < 2 ^ 64 → mapPayload widen (.uint64 u)
        = .integer (if u < 2 ^ 63 then (u : Int) else (u : Int) - 2 ^ 64)) ∧
    (∀ u : Nat, u < 2 ^ 64 → mapPayload widen (.uint u)
        = .integer (if u < 2 ^ 63 then (u : Int) else (u : Int) - 2 ^ 64)) := by
  refine ⟨?_, ?_, ?_, ?_, ?_, ?_, ?_, ?_, ?_, ?_, ?_⟩
  · intro n h
    simp only [mapPayload]
    rw [toInt64_of_inRange _ (by omega) (by omega)]
  · intro n h
    simp only [mapPayload]
    rw [toInt64_of_inRange _ (by omega) (by omega)]
  · intro n h
    simp only [mapPayload]
    rw [toInt64_of_inRange _ (by omega) (by omega)]
  · intro n h
    simp only [mapPayload]
    rw [toInt64_of_inRange _ (by omega) (by omega)]
  · intro n h1 h2
    simp only [mapPayload]
    rw [toInt64_of_inRange _ h1 h2]
  · intro n h1 h2
    simp only [mapPayload]
    rw [toInt64_of_inRange _ (by omega) (by omega)]
  · intro n h1 h2
    simp only [mapPayload]
    rw [toInt64_of_inRange _ (by omega) (by omega)]
  · intro n h1 h2
    simp only [mapPayload]
    rw [toInt64_of_inRange _ (by omega) (by omega)]
  · intro n _ _
    simp only [mapPayload]
  · intro u h
    simp only [mapPayload]
    rw [toInt64_unsigned u h]
  · intro u h
    simp only [mapPayload]
    rw [toInt64_unsigned u h]

theorem integer_encoding_witness :
    ((200 : Nat) < 2 ^ 8 ∧
      mapPayload widenIEEE (.uint8 200) = .integer ((200 : Nat) : Int)) ∧
    ((65535 : Nat) < 2 ^ 16 ∧
      mapPayload widenIEEE (.uint16 65535) = .integer ((65535 : Nat) : Int)) ∧
    ((4294967295 : Nat) < 2 ^ 32 ∧
      mapPayload widenIEEE (.uint32 4294967295) = .integer ((4294967295 : Nat) : Int)) ∧
    ((7 : Nat) < 2 ^ 32 ∧ mapPayload widenIEEE (.uint 7) = .integer ((7 : Nat) : Int)) ∧
    (-(2 ^ 63) ≤ (-5 : Int) ∧ (-5 : Int) < 2 ^ 63 ∧
      mapPayload widenIEEE (.int (-5)) = .integer (-5)) ∧
    (-(2 ^ 7) ≤ (-128 : Int) ∧ (-128 : Int) < 2 ^ 7 ∧
      mapPayload widenIEEE (.int8 (-128)) = .integer (-128)) ∧
    (-(2 ^ 15) ≤ (-3 : Int) ∧ (-3 : Int) < 2 ^ 15 ∧
      mapPayload widenIEEE (.int16 (-3)) = .integer (-3)) ∧
    (-(2 ^ 31) ≤ (2147483647 : Int) ∧ (2147483647 : Int) < 2 ^ 31 ∧
      mapPayload widenIEEE (.int32 2147483647) = .integer 2147483647) ∧
    (-(2 ^ 63) ≤ (-(2 ^ 63) : Int) ∧ (-(2 ^ 63) : Int) < 2 ^ 63 ∧
      mapPayload widenIEEE (.int64 (-(2 ^ 63))) = .integer (-(2 ^ 63))) ∧
    ((2 ^ 64 - 1 : Nat) < 2 ^ 64 ∧
      mapPayload widenIEEE (.uint64 (2 ^ 64 - 1))
        = .integer (if (2 ^ 64 - 1 : Nat) < 2 ^ 63 then ((2 ^ 64 - 1 : Nat) : Int)
            else ((2 ^ 64 - 1 : Nat) : Int) - 2 ^ 64)) ∧
    ((2 ^ 63 : Nat) < 2 ^ 64 ∧
      mapPayload widenIEEE (.uint (2 ^ 63))
        = .integer (if (2 ^ 63 : Nat) < 2 ^ 63 then ((2 ^ 63 : Nat) : Int)
            else ((2 ^ 63 : Nat) : Int) - 2 ^ 64)) :=
  ⟨⟨by decide, (integer_encoding widenIEEE).1 200 (by decide)⟩,
    ⟨by decide, (integer_encoding widenIEEE).2.1 65535 (by decide)⟩,
    ⟨by decide, (integer_encoding widenIEEE).2.2.1 4294967295 (by decide)⟩,
    ⟨by decide, (integer_encoding widenIEEE).2.2.2.1 7 (by decide)⟩,
    ⟨by decide, by decide,
      (integer_encoding widenIEEE).2.2.2.2.1 (-5) (by decide) (by decide)⟩,
    ⟨by decide, by decide,
      (integer_encoding widenIEEE).2.2.2.2.2.1 (-128) (by decide) (by decide)⟩,
    ⟨by decide, by decide,
      (integer_encoding widenIEEE).2.2.2.2.2.2.1 (-3) (by decide) (by decide)⟩,
    ⟨by decide, by decide,
      (integer_encoding widenIEEE).2.2.2.2.2.2.2.1 2147483647 (by decide) (by decide)⟩,
    ⟨by decide, by decide,
      (integer_encoding widenIEEE).2.2.2.2.2.2.2.2.1 (-(2 ^ 63)) (by decide) (by decide)⟩,
    ⟨by decide, (integer_encoding widenIEEE).2.2.2.2.2.2.2.2.2.1 (2 ^ 64 - 1) (by decide)⟩,
    ⟨by decide, (integer_encoding widenIEEE).2.2.2.2.2.2.2.2.2.2 (2 ^ 63) (by decide)⟩⟩

/-- C10 (encoding undoes decoding): for every Tagged Value `t` whose Structs have
distinct keys, at any depth, `mapPayload (getPayload t)` is `t`; every value
`getPayload` returns is nil or of a type `mapPayload` recognises, and nil is
encoded as Null. -/
theorem encoding_undoes_decoding (widen : GoFloat32 → GoFloat64) (t : Value)
    (h : t.wellFormed = true) :
    mapPayload widen (getPayload t) = t ∧
      (getPayload t = HostValue.nil ∨ (getPayload t).recognised = true) ∧
      mapPayload widen HostValue.nil = Value.null :=
  ⟨mapPayload_getPayload_id widen t h, getPayload_recognised t, rfl⟩

theorem encoding_undoes_decoding_witness :
    exampleValue.wellFormed = true ∧
      mapPayload widenIEEE (getPayload exampleValue) = exampleValue ∧
      (getPayload exampleValue = HostValue.nil ∨
        (getPayload exampleValue).recognised = true) ∧
      mapPayload widenIEEE HostValue.nil = Value.null :=
  ⟨by decide, encoding_undoes_decoding widenIEEE exampleValue (by decide)⟩

end Qdrant
